import Mathlib

/-!
Shallow embedding of the register transaction and bitfield decoding
logic of cm6206ctl (cm6206ctl.c and the earlier revision of the same
program). Machine integers are modelled as Nat with explicit 16-bit
bounds where overflow matters; the HID transport is modelled as an
oracle record giving the results of the one send and the one receive a
transaction can make.
-/

namespace CM6206

/-- NUM_REGS from cm6206ctl.c. -/
def NUM_REGS : Nat := 6

/-- The REG_DEFAULT table from cm6206ctl.c: register values after reset. -/
def REG_DEFAULT : List Nat := [0x2000, 0x3002, 0x6004, 0x147f, 0x0000, 0x3000]

/-- The REG_INIT table from cm6206ctl.c: register values for initialization. -/
def REG_INIT : List Nat := [0x2004, 0x3000, 0xF800, 0x147f, 0x0000, 0x3000]

/-- The 5-byte read request frame built at the top of cm6206_read:
report id 0x00, opcode 0x30, two zero data bytes, register address. -/
def encode_read (regnum : Nat) : List Nat :=
  [0x00, 0x30, 0x00, 0x00, regnum % 256]

/-- The 5-byte write request frame built at the top of cm6206_write:
report id 0x00, opcode 0x20, low data byte, high data byte, register
address; bytes carry the uint8 truncations of value and value >> 8. -/
def encode_write (regnum value : Nat) : List Nat :=
  [0x00, 0x20, value % 256, (value / 256) % 256, regnum % 256]

/-- Decoding of a read reply in cm6206_read:
(((uint16_t)buf[2]) << 8) | buf[1]. -/
def decode_read_response (reply : List Nat) : Nat :=
  ((reply.getD 2 0) <<< 8) ||| (reply.getD 1 0)

/-- The reply marker guard of cm6206_read, embedded with the C operator
precedence of `buf[0] & 0xe0 != 0x20`: the comparison binds tighter
than the bitwise AND, so the mask actually tested is the boolean value
of the comparison 0xe0 != 0x20. -/
def marker_guard (b0 : Nat) : Bool :=
  (b0 &&& (if (0xe0 : Nat) ≠ 0x20 then 1 else 0)) != 0

/-- Oracle for the hidapi calls one transaction makes: the return value
of hid_write, the return value of hid_read, and the bytes the receive
leaves in the buffer. -/
structure Transport where
  sendN : Int
  recvN : Int
  reply : List Nat
deriving DecidableEq

/-- Transport events issued by a transaction, in order: a blocking send
of a frame, or a blocking receive. -/
inductive Ev where
  | send : List Nat → Ev
  | recv : Ev
deriving DecidableEq

/-- cm6206_read from cm6206ctl.c: send the read frame and fail with -1
unless 5 bytes were reported sent; receive and fail with -2 unless the
reported count is 3; fail with -3 when the marker guard fires; only
then store the decoded value in the caller buffer slot. Returns the
result code, the final contents of the caller slot, and the transport
events issued. -/
def cm6206_read (t : Transport) (regnum old : Nat) : Int × Nat × List Ev :=
  if t.sendN ≠ 5 then (-1, old, [Ev.send (encode_read regnum)])
  else if t.recvN ≠ 3 then (-2, old, [Ev.send (encode_read regnum), Ev.recv])
  else if marker_guard (t.reply.getD 0 0) then
    (-3, old, [Ev.send (encode_read regnum), Ev.recv])
  else (0, decode_read_response t.reply, [Ev.send (encode_read regnum), Ev.recv])

/-- cm6206_write from cm6206ctl.c: send the write frame and fail with
-1 unless 5 bytes were reported sent; there is no receive. Returns the
result code and the transport events issued. -/
def cm6206_write (t : Transport) (regnum value : Nat) : Int × List Ev :=
  if t.sendN ≠ 5 then (-1, [Ev.send (encode_write regnum value)])
  else (0, [Ev.send (encode_write regnum value)])

/-- The loop body of readAllRegisters from cm6206ctl.c, reading
registers idx, idx+1, ... with the given remaining count: a negative
read result aborts the whole batch through err() so no partial register
list escapes. `reads n` is the transport behaviour of the read of
register n. Returns the outcome together with the list of register
indices for which a read transaction was issued. -/
def readAllAux (reads : Nat → Transport) (idx : Nat) :
    Nat → Except (Int × Nat) (List Nat) × List Nat
  | 0 => (Except.ok [], [])
  | Nat.succ k =>
    let r := cm6206_read (reads idx) idx 0
    if r.1 < 0 then (Except.error (r.1, idx), [idx])
    else
      match readAllAux reads (idx + 1) k with
      | (Except.ok vs, tr) => (Except.ok (r.2.1 :: vs), idx :: tr)
      | (Except.error e, tr) => (Except.error e, idx :: tr)

/-- readAllRegisters from cm6206ctl.c: one read per register index,
0 through NUM_REGS - 1, aborting on the first failure. -/
def readAllRegisters (reads : Nat → Transport) :
    Except (Int × Nat) (List Nat) × List Nat :=
  readAllAux reads 0 NUM_REGS

/-- The -INIT write loop of main in cm6206ctl.c, writing
REG_INIT[idx], REG_INIT[idx+1], ... with the given remaining count: a
negative write result aborts through err(). Returns the outcome and
the (index, value) pairs of the write transactions issued, in order. -/
def initWritesAux (writes : Nat → Transport) (idx : Nat) :
    Nat → Except Nat Unit × List (Nat × Nat)
  | 0 => (Except.ok (), [])
  | Nat.succ k =>
    if (cm6206_write (writes idx) idx (REG_INIT.getD idx 0)).1 < 0 then
      (Except.error idx, [(idx, REG_INIT.getD idx 0)])
    else
      match initWritesAux writes (idx + 1) k with
      | (res, tr) => (res, (idx, REG_INIT.getD idx 0) :: tr)

/-- The cmdInit block of main in cm6206ctl.c: write all NUM_REGS
registers from REG_INIT in ascending index order, then refresh with
readAllRegisters; a failing write exits before the refresh. Returns
the outcome, the write transactions issued, and whether the trailing
readAllRegisters call was reached. -/
def cmdInit (writes : Nat → Transport) :
    Except Nat Unit × List (Nat × Nat) × Bool :=
  match initWritesAux writes 0 NUM_REGS with
  | (Except.ok _, tr) => (Except.ok (), tr, true)
  | (Except.error k, tr) => (Except.error k, tr, false)

/-- The masked read-modify-write computation: the function `newvalue`
of the earlier revision and the identical inline expression in main of
cm6206ctl.c: (oldvalue & ~newmask) | (newbits & newmask) on 16-bit
values, with the 16-bit complement written as xor with 0xFFFF. -/
def newvalue (oldvalue newmask newbits : Nat) : Nat :=
  (oldvalue &&& (0xFFFF ^^^ newmask)) ||| (newbits &&& newmask)

/-- The field mask computed in print_reg_bit_range and
print_reg_bit_range_label: 0xFFFF >> (16 - numbits). -/
def maskFor (numbits : Nat) : Nat := 0xFFFF >>> (16 - numbits)

/-- The field extraction used throughout the decoder:
(regval >> firstbit) & mask. -/
def field_extract (regval firstbit numbits : Nat) : Nat :=
  (regval >>> firstbit) &&& maskFor numbits

/-- The label scan loop of print_reg_bit_range_label: walk the label
list in declaration order and overwrite valuetxt on every match (the
loop has no break), yielding the label of the last matching entry, or
none when no entry matches. -/
def scan_labels (labels : List (Nat × String)) (v : Nat) : Option String :=
  labels.foldl (fun acc p => if p.1 = v then some p.2 else acc) none

/-- Enumerated field rendering of print_reg_bit_range_label: the
scanned label if any entry matched, the sentinel fallback label
otherwise. -/
def render_enum (labels : List (Nat × String)) (fallback : String)
    (regval firstbit numbits : Nat) : String :=
  match scan_labels labels (field_extract regval firstbit numbits) with
  | some s => s
  | none => fallback

/-- Modelled from the spec, for refinement comparison only: enumerated
field resolution that chooses the FIRST entry whose value matches, as
the spec sentence on enumerated fields states. -/
def render_enum_first (labels : List (Nat × String)) (fallback : String)
    (regval firstbit numbits : Nat) : String :=
  match labels.find? (fun p => p.1 == field_extract regval firstbit numbits) with
  | some p => p.2
  | none => fallback

/-- The default classification of a multi-bit field in
print_reg_bit_range: the masked field bits of the raw value compared
with the same bits of the register default. -/
def range_isdefault (regnum regval firstbit numbits : Nat) : Bool :=
  field_extract regval firstbit numbits
    == field_extract (REG_DEFAULT.getD regnum 0) firstbit numbits

/-- The default classification of a single bit in
print_reg_bit_special: (regval >> bit & 1) compared with the default
register value at the same bit. -/
def bit_isdefault (regnum regval bit : Nat) : Bool :=
  ((regval >>> bit) &&& 1) == ((REG_DEFAULT.getD regnum 0 >>> bit) &&& 1)

/-! Helper lemmas shared by the claim theorems. -/

theorem mask16_eq : (0xFFFF : Nat) = 2 ^ 16 - 1 := by norm_num

theorem testBit_mask16 (i : Nat) :
    Nat.testBit 0xFFFF i = decide (i < 16) := by
  rw [mask16_eq, Nat.testBit_two_pow_sub_one]

theorem hi_bit_false {x i : Nat} (hx : x < 65536) (hi : 16 ≤ i) :
    x.testBit i = false := by
  apply Nat.testBit_lt_two_pow
  calc x < 65536 := hx
    _ = 2 ^ 16 := by norm_num
    _ ≤ 2 ^ i := Nat.pow_le_pow_right (by norm_num) hi

theorem testBit_not16 (m i : Nat) :
    (0xFFFF ^^^ m).testBit i = (decide (i < 16) ^^ m.testBit i) := by
  simp [Nat.testBit_xor, testBit_mask16]

/-- On a mask-selected bit the masked read-modify-write takes the bit
of the new bits argument. -/
theorem newvalue_testBit_sel {c w m : Nat} (hm : m < 65536) {i : Nat}
    (hmi : m.testBit i = true) :
    (newvalue c m w).testBit i = w.testBit i := by
  have hi16 : i < 16 := by
    by_contra hge
    rw [hi_bit_false hm (by omega)] at hmi
    exact Bool.noConfusion hmi
  simp [newvalue, testBit_not16, testBit_mask16, hmi, hi16]

/-- On a bit not selected by the mask the masked read-modify-write
keeps the bit of the old value. -/
theorem newvalue_testBit_unsel {c w m : Nat} (hc : c < 65536) {i : Nat}
    (hmi : m.testBit i = false) :
    (newvalue c m w).testBit i = c.testBit i := by
  by_cases hi16 : i < 16
  · simp [newvalue, testBit_not16, testBit_mask16, hmi, hi16]
  · rw [hi_bit_false hc (by omega)]
    simp [newvalue, testBit_not16, testBit_mask16, hmi, hi16]

/-- Exhaustive case analysis of one read transaction: short send,
short receive, marker rejection, or success. -/
theorem cm6206_read_cases (t : Transport) (regnum old : Nat) :
    (t.sendN ≠ 5 ∧
      cm6206_read t regnum old = (-1, old, [Ev.send (encode_read regnum)]))
    ∨ (t.sendN = 5 ∧ t.recvN ≠ 3 ∧
      cm6206_read t regnum old =
        (-2, old, [Ev.send (encode_read regnum), Ev.recv]))
    ∨ (t.sendN = 5 ∧ t.recvN = 3
        ∧ marker_guard (t.reply.getD 0 0) = true ∧
      cm6206_read t regnum old =
        (-3, old, [Ev.send (encode_read regnum), Ev.recv]))
    ∨ (t.sendN = 5 ∧ t.recvN = 3
        ∧ marker_guard (t.reply.getD 0 0) = false ∧
      cm6206_read t regnum old =
        (0, decode_read_response t.reply,
          [Ev.send (encode_read regnum), Ev.recv])) := by
  by_cases hs : t.sendN = 5
  · by_cases hr : t.recvN = 3
    · by_cases hm : marker_guard (t.reply.getD 0 0) = true
      · refine Or.inr (Or.inr (Or.inl ⟨hs, hr, hm, ?_⟩))
        rw [cm6206_read, if_neg (fun h => h hs), if_neg (fun h => h hr),
          if_pos hm]
      · refine Or.inr (Or.inr (Or.inr ⟨hs, hr, Bool.eq_false_iff.mpr hm, ?_⟩))
        rw [cm6206_read, if_neg (fun h => h hs), if_neg (fun h => h hr),
          if_neg hm]
    · refine Or.inr (Or.inl ⟨hs, hr, ?_⟩)
      rw [cm6206_read, if_neg (fun h => h hs), if_pos hr]
  · refine Or.inl ⟨hs, ?_⟩
    rw [cm6206_read, if_pos hs]

/-! Claim theorems. -/

/-- C1: the masked read-modify-write computation is the pure total
function (current & ~mask) | (write & mask); it agrees with the write
value on every mask-selected bit and with the current value on every
other bit, so result & mask = write & mask and result & ~mask =
current & ~mask, a full mask 0xFFFF yields the write value and a zero
mask yields the current value. -/
theorem masked_rmw_correct (c w m : Nat)
    (hc : c < 65536) (hw : w < 65536) (hm : m < 65536) :
    newvalue c m w = (c &&& (0xFFFF ^^^ m)) ||| (w &&& m)
    ∧ (∀ i, m.testBit i = true → (newvalue c m w).testBit i = w.testBit i)
    ∧ (∀ i, m.testBit i = false → (newvalue c m w).testBit i = c.testBit i)
    ∧ newvalue c m w &&& m = w &&& m
    ∧ newvalue c m w &&& (0xFFFF ^^^ m) = c &&& (0xFFFF ^^^ m)
    ∧ newvalue c 0xFFFF w = w
    ∧ newvalue c 0 w = c
    ∧ newvalue c m w < 65536 := by
  refine ⟨rfl, fun i hmi => newvalue_testBit_sel hm hmi,
    fun i hmi => newvalue_testBit_unsel hc hmi, ?_, ?_, ?_, ?_, ?_⟩
  · apply Nat.eq_of_testBit_eq
    intro i
    cases hmi : m.testBit i with
    | false => simp [hmi]
    | true => simp [hmi, newvalue_testBit_sel hm hmi]
  · apply Nat.eq_of_testBit_eq
    intro i
    cases hmi : m.testBit i with
    | false => simp [hmi, testBit_not16, testBit_mask16,
        newvalue_testBit_unsel hc hmi]
    | true =>
      have hi16 : i < 16 := by
        by_contra hge
        rw [hi_bit_false hm (by omega)] at hmi
        exact Bool.noConfusion hmi
      simp [hmi, testBit_not16, testBit_mask16, hi16]
  · apply Nat.eq_of_testBit_eq
    intro i
    by_cases hi16 : i < 16
    · have hmi : (0xFFFF : Nat).testBit i = true := by
        simp [testBit_mask16, hi16]
      exact newvalue_testBit_sel (by norm_num) hmi
    · have hmi : (0xFFFF : Nat).testBit i = false := by
        simp [testBit_mask16, hi16]
      rw [newvalue_testBit_unsel hc hmi, hi_bit_false hc (by omega),
        hi_bit_false hw (by omega)]
  · apply Nat.eq_of_testBit_eq
    intro i
    exact newvalue_testBit_unsel hc (Nat.zero_testBit i)
  · have h1 : c &&& (0xFFFF ^^^ m) < 2 ^ 16 := by
      apply Nat.and_lt_two_pow
      rw [mask16_eq]
      have : (2 ^ 16 - 1 : Nat) ^^^ m < 2 ^ 16 :=
        Nat.xor_lt_two_pow (by norm_num) (by omega)
      exact this
    have h2 : w &&& m < 2 ^ 16 := Nat.and_lt_two_pow w (by omega)
    have := Nat.or_lt_two_pow h1 h2
    simpa [newvalue] using this

/-- C1 witness: at current 0x2000, write 0xFFFF, mask 0x8000 the
masked bits of the result equal the masked bits of the write value. -/
theorem masked_rmw_correct_w :
    newvalue 0x2000 0x8000 0xFFFF &&& 0x8000 = 0xFFFF &&& 0x8000 :=
  (masked_rmw_correct 0x2000 0xFFFF 0x8000 (by decide) (by decide)
    (by decide)).2.2.2.1

/-- C6: the encoded read frame is [0x00, 0x30, 0x00, 0x00, idx], the
encoded write frame is [0x00, 0x20, v & 0xFF, v >> 8, idx], and
decoding a reply whose data bytes at offsets 1 and 2 are the low and
high bytes of v reconstructs v exactly, so encode and decode round-trip
every 16-bit value. -/
theorem encode_decode_roundtrip (idx v b0 : Nat)
    (hi : idx < 256) (hv : v < 65536) :
    encode_read idx = [0x00, 0x30, 0x00, 0x00, idx]
    ∧ encode_write idx v = [0x00, 0x20, v &&& 0xFF, v >>> 8, idx]
    ∧ decode_read_response [b0, v &&& 0xFF, v >>> 8] = v := by
  have hlow : v % 256 = v &&& 0xFF := by
    rw [show (0xFF : Nat) = 2 ^ 8 - 1 by norm_num,
      Nat.and_pow_two_sub_one_eq_mod]
  have hhigh : v / 256 = v >>> 8 := by
    rw [Nat.shiftRight_eq_div_pow]
  have h255 : ∀ j, Nat.testBit 0xFF j = decide (j < 8) := by
    intro j
    rw [show (0xFF : Nat) = 2 ^ 8 - 1 by norm_num,
      Nat.testBit_two_pow_sub_one]
  refine ⟨?_, ?_, ?_⟩
  · simp [encode_read, Nat.mod_eq_of_lt hi]
  · have hd : v / 256 < 256 := Nat.div_lt_of_lt_mul (by omega)
    simp [encode_write, Nat.mod_eq_of_lt hi, hlow, ← hhigh,
      Nat.mod_eq_of_lt hd]
  · apply Nat.eq_of_testBit_eq
    intro i
    by_cases hi8 : i < 8
    · simp [decode_read_response, Nat.testBit_shiftLeft, h255, hi8,
        Nat.not_le.mpr hi8]
    · have h8 : 8 ≤ i := Nat.not_lt.mp hi8
      simp [decode_read_response, Nat.testBit_shiftLeft, h255, hi8, h8,
        Nat.add_sub_cancel' h8]

/-- C6 witness: decoding the reply bytes for 0x1234 yields 0x1234. -/
theorem encode_decode_roundtrip_w :
    decode_read_response [0x20, 0x1234 &&& 0xFF, 0x1234 >>> 8] = 0x1234 :=
  (encode_decode_roundtrip 5 0x1234 0x20 (by decide) (by decide)).2.2

/-- C3: once the send reported 5 bytes and the receive reported 3, the
read transaction returns the marker-mismatch error -3 exactly when the
least significant bit of the first reply byte is 1; a reply whose low
bit is 0 is accepted with result 0 no matter what its high nibble is,
and the marker guard is equivalent to testing bit 0 only. -/
theorem marker_guard_is_lsb (t : Transport) (regnum old : Nat)
    (hs : t.sendN = 5) (hr : t.recvN = 3) :
    ((cm6206_read t regnum old).1 = -3 ↔ (t.reply.getD 0 0) &&& 1 = 1)
    ∧ ((t.reply.getD 0 0) &&& 1 = 0 → (cm6206_read t regnum old).1 = 0)
    ∧ (∀ b0 : Nat, marker_guard b0 = ((b0 &&& 1) == 1)) := by
  have hg : ∀ b0 : Nat, marker_guard b0 = ((b0 &&& 1) == 1) := by
    intro b0
    simp only [marker_guard, if_pos (by norm_num : (0xe0 : Nat) ≠ 0x20)]
    rcases Nat.mod_two_eq_zero_or_one b0 with h | h <;>
      simp [Nat.and_one_is_mod, h]
  rcases cm6206_read_cases t regnum old with
    ⟨hs5, _⟩ | ⟨_, hr3, _⟩ | ⟨_, _, hm, he⟩ | ⟨_, _, hm, he⟩
  · exact absurd hs hs5
  · exact absurd hr hr3
  · rw [hg] at hm
    have hm1 : t.reply.getD 0 0 &&& 1 = 1 := by simpa using hm
    refine ⟨?_, ?_, hg⟩
    · rw [he]
      exact ⟨fun _ => hm1, fun _ => rfl⟩
    · intro h0
      omega
  · rw [hg] at hm
    have hm1 : ¬ (t.reply.getD 0 0 &&& 1 = 1) := by simpa using hm
    refine ⟨?_, ?_, hg⟩
    · rw [he]
      exact ⟨fun h => (by simp at h),
        fun h => absurd h hm1⟩
    · intro _
      rw [he]

/-- C3 witness: a reply whose first byte has low bit 1 is rejected with
result -3. -/
theorem marker_guard_is_lsb_w :
    (cm6206_read ⟨5, 3, [0x21, 0x34, 0x12]⟩ 0 0).1 = -3 :=
  ((marker_guard_is_lsb ⟨5, 3, [0x21, 0x34, 0x12]⟩ 0 0 rfl rfl).1).mpr
    (by decide)

/-- C5 counterexample: with a full send and a receive reporting 4 bytes
(at least 3), cm6206_read still returns the short-read error -2 because
the code compares the received count against exactly 3, refuting the
claim that a receive of at least 3 bytes never produces that error. -/
theorem short_read_at_four_bytes_cex :
    (cm6206_read ⟨5, 4, [0x20, 0, 0]⟩ 0 0).1 = -2 ∧ ¬ ((4 : Int) < 3) := by
  decide

/-- C5 amended: the read transaction returns -1 exactly when the send
does not report the full 5 bytes (in particular whenever fewer than 5
bytes were sent), and returns -2 exactly when the send reported 5
bytes and the receive reported a byte count different from 3, fewer or
more. -/
theorem read_error_codes (t : Transport) (regnum old : Nat) :
    (t.sendN < 5 → (cm6206_read t regnum old).1 = -1)
    ∧ ((cm6206_read t regnum old).1 = -1 ↔ t.sendN ≠ 5)
    ∧ ((cm6206_read t regnum old).1 = -2 ↔ (t.sendN = 5 ∧ t.recvN ≠ 3)) := by
  rcases cm6206_read_cases t regnum old with
    ⟨hs, he⟩ | ⟨hs, hr, he⟩ | ⟨hs, hr, _, he⟩ | ⟨hs, hr, _, he⟩ <;> rw [he]
  · refine ⟨fun _ => rfl, ⟨fun _ => hs, fun _ => rfl⟩, ?_⟩
    exact ⟨fun h => (by simp at h),
      fun ⟨h5, _⟩ => absurd h5 hs⟩
  · refine ⟨fun h => by omega, ?_, ?_⟩
    · exact ⟨fun h => (by simp at h),
        fun h => absurd hs h⟩
    · exact ⟨fun _ => ⟨hs, hr⟩, fun _ => rfl⟩
  · refine ⟨fun h => by omega, ?_, ?_⟩
    · exact ⟨fun h => (by simp at h),
        fun h => absurd hs h⟩
    · exact ⟨fun h => (by simp at h),
        fun ⟨_, h3⟩ => absurd hr h3⟩
  · refine ⟨fun h => by omega, ?_, ?_⟩
    · exact ⟨fun h => (by simp at h),
        fun h => absurd hs h⟩
    · exact ⟨fun h => (by simp at h),
        fun ⟨_, h3⟩ => absurd hr h3⟩

/-- C5 witness: a send reporting 3 of the 5 bytes yields result -1. -/
theorem read_error_codes_w : (cm6206_read ⟨3, 0, []⟩ 0 0).1 = -1 :=
  (read_error_codes ⟨3, 0, []⟩ 0 0).1 (by decide)

/-- C4 counterexample: a write transaction issues exactly one send and
no receive, even on a transport that accepts the whole frame, refuting
the claim that the write transaction is a blocking send followed by a
blocking receive. -/
theorem write_has_no_receive_cex :
    (cm6206_write ⟨5, 3, []⟩ 0 0).2 = [Ev.send (encode_write 0 0)]
    ∧ Ev.recv ∉ (cm6206_write ⟨5, 3, []⟩ 0 0).2 := by
  decide

/-- C4 amended: a read transaction issues the send of the 5-byte read
frame and, exactly when that send reported the full 5 bytes, one
following receive; a write transaction issues the send of the 5-byte
write frame and no receive at all. -/
theorem transaction_event_shape (t : Transport) (regnum old value : Nat) :
    (cm6206_read t regnum old).2.2 =
      (if t.sendN = 5 then [Ev.send (encode_read regnum), Ev.recv]
       else [Ev.send (encode_read regnum)])
    ∧ (cm6206_write t regnum value).2 = [Ev.send (encode_write regnum value)]
    ∧ Ev.recv ∉ (cm6206_write t regnum value).2 := by
  have hw : (cm6206_write t regnum value).2
      = [Ev.send (encode_write regnum value)] := by
    rw [cm6206_write]
    by_cases hs : t.sendN = 5
    · rw [if_neg (fun h => h hs)]
    · rw [if_pos hs]
  refine ⟨?_, hw, ?_⟩
  · rcases cm6206_read_cases t regnum old with
      ⟨hs, he⟩ | ⟨hs, _, he⟩ | ⟨hs, _, _, he⟩ | ⟨hs, _, _, he⟩ <;> rw [he]
    · rw [if_neg hs]
    · rw [if_pos hs]
    · rw [if_pos hs]
    · rw [if_pos hs]
  · rw [hw]
    simp

/-- C10: on every failing result of the read transaction the caller
buffer slot keeps its old value; the decoded register value is stored
exactly on the success path, and the result code is always one of
-1, -2, -3 or 0. -/
theorem read_preserves_buffer_on_error (t : Transport) (regnum old : Nat) :
    ((cm6206_read t regnum old).1 ≠ 0 → (cm6206_read t regnum old).2.1 = old)
    ∧ ((cm6206_read t regnum old).1 = 0 →
        (cm6206_read t regnum old).2.1 = decode_read_response t.reply)
    ∧ ((cm6206_read t regnum old).1 = -1 ∨ (cm6206_read t regnum old).1 = -2
        ∨ (cm6206_read t regnum old).1 = -3
        ∨ (cm6206_read t regnum old).1 = 0) := by
  rcases cm6206_read_cases t regnum old with
    ⟨_, he⟩ | ⟨_, _, he⟩ | ⟨_, _, _, he⟩ | ⟨_, _, _, he⟩ <;> rw [he]
  · exact ⟨fun _ => rfl, fun h => (by simp at h),
      Or.inl rfl⟩
  · exact ⟨fun _ => rfl, fun h => (by simp at h),
      Or.inr (Or.inl rfl)⟩
  · exact ⟨fun _ => rfl, fun h => (by simp at h),
      Or.inr (Or.inr (Or.inl rfl))⟩
  · exact ⟨fun h => absurd rfl h, fun _ => rfl,
      Or.inr (Or.inr (Or.inr rfl))⟩

/-- C10 witness: a short receive leaves the caller slot at its old
value 0x1234. -/
theorem read_preserves_buffer_on_error_w :
    (cm6206_read ⟨5, 4, []⟩ 2 0x1234).2.1 = 0x1234 :=
  (read_preserves_buffer_on_error ⟨5, 4, []⟩ 2 0x1234).1 (by decide)

/-- A scan over entries none of which matches leaves the accumulator
unchanged. -/
theorem scan_foldl_nomatch (v : Nat) (ls : List (Nat × String))
    (acc : Option String) (h : ∀ p ∈ ls, p.1 ≠ v) :
    ls.foldl (fun a p => if p.1 = v then some p.2 else a) acc = acc := by
  induction ls generalizing acc with
  | nil => rfl
  | cons p rest ih =>
    have hp : p.1 ≠ v := h p (List.mem_cons_self p rest)
    rw [List.foldl_cons, if_neg hp]
    exact ih acc (fun q hq => h q (List.mem_cons_of_mem p hq))

/-- C2 counterexample: with duplicate declared values the scan loop
(which has no break) keeps overwriting, so the code resolves to the
LAST matching entry, while first-match-wins resolution gives the first:
on labels [(0, A), (0, B)] with extracted value 0 the code renders B
and the spec resolution renders A. -/
theorem enum_first_match_cex :
    render_enum [(0, "A"), (0, "B")] "R" 0 0 2 = "B"
    ∧ render_enum_first [(0, "A"), (0, "B")] "R" 0 0 2 = "A"
    ∧ render_enum [(0, "A"), (0, "B")] "R" 0 0 2
      ≠ render_enum_first [(0, "A"), (0, "B")] "R" 0 0 2 := by
  decide

/-- C2 amended: enumerated field rendering extracts the field value as
(raw >> first_bit) & maskFor num_bits and resolves it against the
declared (value, label) list in declaration order; when no entry
matches, the fallback label is used, and when entries match, the label
of the LAST matching entry is chosen, because the scan loop overwrites
its result on every match. -/
theorem enum_resolution (labels : List (Nat × String)) (fallback : String)
    (regval firstbit numbits : Nat) :
    field_extract regval firstbit numbits
      = (regval >>> firstbit) &&& (0xFFFF >>> (16 - numbits))
    ∧ ((∀ p ∈ labels, p.1 ≠ field_extract regval firstbit numbits) →
        render_enum labels fallback regval firstbit numbits = fallback)
    ∧ (∀ l₁ : List (Nat × String), ∀ p : Nat × String,
        ∀ l₂ : List (Nat × String),
        labels = l₁ ++ p :: l₂ →
        p.1 = field_extract regval firstbit numbits →
        (∀ q ∈ l₂, q.1 ≠ field_extract regval firstbit numbits) →
        render_enum labels fallback regval firstbit numbits = p.2) := by
  refine ⟨rfl, ?_, ?_⟩
  · intro h
    rw [render_enum, scan_labels, scan_foldl_nomatch _ _ _ h]
  · intro l₁ p l₂ hsplit hp hl₂
    subst hsplit
    rw [render_enum, scan_labels, List.foldl_append, List.foldl_cons,
      if_pos hp, scan_foldl_nomatch _ _ _ hl₂]

/-- C2 witness: on the spec example the extracted value 2 resolves to
label B and the unlisted extracted value 1 falls back to R. -/
theorem enum_resolution_w :
    render_enum [(0, "A"), (2, "B")] "R" 2 0 2 = "B"
    ∧ render_enum [(0, "A"), (2, "B")] "R" 1 0 2 = "R" := by
  constructor
  · exact (enum_resolution [(0, "A"), (2, "B")] "R" 2 0 2).2.2
      [(0, "A")] (2, "B") [] rfl (by decide) (by simp)
  · exact (enum_resolution [(0, "A"), (2, "B")] "R" 1 0 2).2.1 (by decide)

/-- On the success path the read transaction yields the decoded reply. -/
theorem cm6206_read_success_val (t : Transport) (r o : Nat)
    (h : (cm6206_read t r o).1 = 0) :
    (cm6206_read t r o).2.1 = decode_read_response t.reply := by
  rcases cm6206_read_cases t r o with
    ⟨_, he⟩ | ⟨_, _, he⟩ | ⟨_, _, _, he⟩ | ⟨_, _, _, he⟩ <;> rw [he] at h ⊢
  · simp at h
  · simp at h
  · simp at h

/-- Unfolding of one readAllAux step. -/
theorem readAllAux_succ (reads : Nat → Transport) (idx k : Nat) :
    readAllAux reads idx (k + 1) =
      (if (cm6206_read (reads idx) idx 0).1 < 0 then
        (Except.error ((cm6206_read (reads idx) idx 0).1, idx), [idx])
      else
        match readAllAux reads (idx + 1) k with
        | (Except.ok vs, tr) =>
          (Except.ok ((cm6206_read (reads idx) idx 0).2.1 :: vs), idx :: tr)
        | (Except.error e, tr) => (Except.error e, idx :: tr)) := rfl

/-- When every remaining read succeeds, the batch returns the decoded
values of the registers idx, idx+1, ... in ascending order and issues
exactly those reads. -/
theorem readAllAux_ok (reads : Nat → Transport) (k : Nat) :
    ∀ idx, (∀ i, i < k → (cm6206_read (reads (idx + i)) (idx + i) 0).1 = 0) →
    readAllAux reads idx k =
      (Except.ok ((List.range' idx k).map
        fun n => decode_read_response (reads n).reply),
       List.range' idx k) := by
  induction k with
  | zero => intro idx h; rfl
  | succ k ih =>
    intro idx h
    have h0 : (cm6206_read (reads idx) idx 0).1 = 0 := by
      simpa using h 0 (Nat.succ_pos k)
    have hrest := ih (idx + 1) (fun i hi => by
      have heq : idx + 1 + i = idx + (i + 1) := by omega
      rw [heq]
      exact h (i + 1) (by omega))
    rw [readAllAux_succ, if_neg (by rw [h0]; decide), hrest,
      cm6206_read_success_val _ _ _ h0]
    rw [List.range'_succ]
    rfl

/-- When the read of register idx+m is the first to fail, the batch
surfaces its error code and index and issues exactly the reads idx
through idx+m. -/
theorem readAllAux_err (reads : Nat → Transport) (m : Nat) :
    ∀ idx k, m < k →
    (cm6206_read (reads (idx + m)) (idx + m) 0).1 < 0 →
    (∀ i, i < m → (cm6206_read (reads (idx + i)) (idx + i) 0).1 = 0) →
    readAllAux reads idx k =
      (Except.error ((cm6206_read (reads (idx + m)) (idx + m) 0).1, idx + m),
       List.range' idx (m + 1)) := by
  induction m with
  | zero =>
    intro idx k hk hf _
    obtain ⟨k', rfl⟩ : ∃ k', k = k' + 1 := ⟨k - 1, by omega⟩
    simp only [Nat.add_zero] at hf ⊢
    rw [readAllAux_succ, if_pos hf]
    rfl
  | succ m ih =>
    intro idx k hk hf h0
    obtain ⟨k', rfl⟩ : ∃ k', k = k' + 1 := ⟨k - 1, by omega⟩
    have hz : (cm6206_read (reads idx) idx 0).1 = 0 := by
      simpa using h0 0 (Nat.succ_pos m)
    have hrec := ih (idx + 1) k' (by omega)
      (by
        have heq : idx + 1 + m = idx + (m + 1) := by omega
        rw [heq]
        exact hf)
      (by
        intro i hi
        have heq : idx + 1 + i = idx + (i + 1) := by omega
        rw [heq]
        exact h0 (i + 1) (by omega))
    rw [readAllAux_succ, if_neg (by rw [hz]; decide), hrec]
    have heq : idx + 1 + m = idx + (m + 1) := by omega
    rw [heq]
    simp [List.range'_succ]

/-- C7: readAllRegisters issues exactly one read per register index in
ascending order 0..NUM_REGS-1; when all reads succeed it returns the
decoded values, and when the read of index k is the first to fail it
surfaces (error code, k), issues no read past k, and returns no
partial value list. -/
theorem read_all_batch (reads : Nat → Transport) :
    ((∀ n, n < NUM_REGS → (cm6206_read (reads n) n 0).1 = 0) →
      readAllRegisters reads =
        (Except.ok ((List.range NUM_REGS).map
          fun n => decode_read_response (reads n).reply),
         List.range NUM_REGS))
    ∧ (∀ k, k < NUM_REGS →
        (cm6206_read (reads k) k 0).1 < 0 →
        (∀ n, n < k → (cm6206_read (reads n) n 0).1 = 0) →
        readAllRegisters reads =
          (Except.error ((cm6206_read (reads k) k 0).1, k),
           List.range (k + 1))) := by
  constructor
  · intro h
    rw [readAllRegisters, List.range_eq_range']
    exact readAllAux_ok reads NUM_REGS 0 (fun i hi => by simpa using h i hi)
  · intro k hk hf h0
    rw [readAllRegisters, List.range_eq_range']
    have := readAllAux_err reads k 0 NUM_REGS hk (by simpa using hf)
      (fun i hi => by simpa using h0 i hi)
    simpa using this

/-- C7 witness: on a transport where every read succeeds and register n
decodes to n, the batch returns values 0..5 and issues reads 0..5 in
order. -/
theorem read_all_batch_w :
    readAllRegisters (fun n => ⟨5, 3, [0x20, n, 0]⟩) =
      (Except.ok [0, 1, 2, 3, 4, 5], [0, 1, 2, 3, 4, 5]) := by
  have h := (read_all_batch (fun n => ⟨5, 3, [0x20, n, 0]⟩)).1 (by decide)
  rw [h]
  rfl

/-- The write result code is 0 on a full send and -1 otherwise. -/
theorem cm6206_write_code (t : Transport) (r v : Nat) :
    (cm6206_write t r v).1 = if t.sendN = 5 then 0 else -1 := by
  rw [cm6206_write]
  by_cases hs : t.sendN = 5
  · rw [if_neg (fun h => h hs), if_pos hs]
  · rw [if_pos hs, if_neg hs]

/-- Unfolding of one initWritesAux step. -/
theorem initWritesAux_succ (writes : Nat → Transport) (idx k : Nat) :
    initWritesAux writes idx (k + 1) =
      (if (cm6206_write (writes idx) idx (REG_INIT.getD idx 0)).1 < 0 then
        (Except.error idx, [(idx, REG_INIT.getD idx 0)])
      else
        match initWritesAux writes (idx + 1) k with
        | (res, tr) => (res, (idx, REG_INIT.getD idx 0) :: tr)) := rfl

/-- When every remaining write succeeds, the init loop issues exactly
the writes of REG_INIT values for indices idx, idx+1, ... in order. -/
theorem initWritesAux_ok (writes : Nat → Transport) (k : Nat) :
    ∀ idx, (∀ i, i < k → (writes (idx + i)).sendN = 5) →
    initWritesAux writes idx k =
      (Except.ok (),
       (List.range' idx k).map fun n => (n, REG_INIT.getD n 0)) := by
  induction k with
  | zero => intro idx h; rfl
  | succ k ih =>
    intro idx h
    have h5 : (writes idx).sendN = 5 := by simpa using h 0 (Nat.succ_pos k)
    have hc : ¬ ((cm6206_write (writes idx) idx (REG_INIT.getD idx 0)).1 < 0) := by
      rw [cm6206_write_code, if_pos h5]
      decide
    have hrest := ih (idx + 1) (fun i hi => by
      have heq : idx + 1 + i = idx + (i + 1) := by omega
      rw [heq]
      exact h (i + 1) (by omega))
    rw [initWritesAux_succ, if_neg hc, hrest, List.range'_succ]
    rfl

/-- When the write to index idx+m is the first to fail, the init loop
surfaces that index and issues exactly the writes idx through idx+m. -/
theorem initWritesAux_err (writes : Nat → Transport) (m : Nat) :
    ∀ idx k, m < k →
    (writes (idx + m)).sendN ≠ 5 →
    (∀ i, i < m → (writes (idx + i)).sendN = 5) →
    initWritesAux writes idx k =
      (Except.error (idx + m),
       (List.range' idx (m + 1)).map fun n => (n, REG_INIT.getD n 0)) := by
  induction m with
  | zero =>
    intro idx k hk hf _
    obtain ⟨k', rfl⟩ : ∃ k', k = k' + 1 := ⟨k - 1, by omega⟩
    simp only [Nat.add_zero] at hf ⊢
    have hc : (cm6206_write (writes idx) idx (REG_INIT.getD idx 0)).1 < 0 := by
      rw [cm6206_write_code, if_neg hf]
      decide
    rw [initWritesAux_succ, if_pos hc]
    rfl
  | succ m ih =>
    intro idx k hk hf h0
    obtain ⟨k', rfl⟩ : ∃ k', k = k' + 1 := ⟨k - 1, by omega⟩
    have h5 : (writes idx).sendN = 5 := by simpa using h0 0 (Nat.succ_pos m)
    have hc : ¬ ((cm6206_write (writes idx) idx (REG_INIT.getD idx 0)).1 < 0) := by
      rw [cm6206_write_code, if_pos h5]
      decide
    have hrec := ih (idx + 1) k' (by omega)
      (by
        have heq : idx + 1 + m = idx + (m + 1) := by omega
        rw [heq]
        exact hf)
      (by
        intro i hi
        have heq : idx + 1 + i = idx + (i + 1) := by omega
        rw [heq]
        exact h0 (i + 1) (by omega))
    rw [initWritesAux_succ, if_neg hc, hrec]
    have heq : idx + 1 + m = idx + (m + 1) := by omega
    rw [heq]
    simp [List.range'_succ]

/-- C8: bulk initialization issues the six REG_INIT writes
{0x2004, 0x3000, 0xF800, 0x147F, 0x0000, 0x3000} in ascending index
order 0..5 and then reaches the trailing readAllRegisters; when the
write to index k is the first to fail, exactly the writes 0..k are
issued (those below k succeeded and stay written, none above k is
attempted), the failure at k is surfaced, and the trailing
readAllRegisters is not reached. -/
theorem bulk_init_sequence (writes : Nat → Transport) :
    ((∀ n, n < NUM_REGS → (writes n).sendN = 5) →
      cmdInit writes =
        (Except.ok (),
         [(0, 0x2004), (1, 0x3000), (2, 0xF800), (3, 0x147f),
          (4, 0x0000), (5, 0x3000)],
         true))
    ∧ (∀ k, k < NUM_REGS → (writes k).sendN ≠ 5 →
        (∀ n, n < k → (writes n).sendN = 5) →
        cmdInit writes =
          (Except.error k,
           (List.range (k + 1)).map fun n => (n, REG_INIT.getD n 0),
           false)) := by
  constructor
  · intro h
    have hw := initWritesAux_ok writes NUM_REGS 0
      (fun i hi => by simpa using h i hi)
    rw [cmdInit, hw]
    rfl
  · intro k hk hf h0
    have hw := initWritesAux_err writes k 0 NUM_REGS hk
      (by simpa using hf) (fun i hi => by simpa using h0 i hi)
    simp only [Nat.zero_add] at hw
    rw [cmdInit, hw, List.range_eq_range']

/-- C8 witness: when the write to index 2 fails, exactly the writes to
indices 0, 1, 2 are issued with their REG_INIT values, the error
surfaces index 2, and the trailing readAllRegisters is not reached. -/
theorem bulk_init_sequence_w :
    cmdInit (fun n => if n = 2 then ⟨0, 0, []⟩ else ⟨5, 3, []⟩) =
      (Except.error 2, [(0, 0x2004), (1, 0x3000), (2, 0xF800)], false) := by
  have h := (bulk_init_sequence
    (fun n => if n = 2 then ⟨0, 0, []⟩ else ⟨5, 3, []⟩)).2
    2 (by decide) (by decide) (by decide)
  rw [h]
  rfl

/-- The field mask is the all-ones mask of the field width. -/
theorem maskFor_eq {n : Nat} (h : n ≤ 16) : maskFor n = 2 ^ n - 1 := by
  apply Nat.eq_of_testBit_eq
  intro i
  rw [maskFor, Nat.testBit_shiftRight, testBit_mask16,
    Nat.testBit_two_pow_sub_one]
  exact decide_eq_decide.mpr (by omega)

/-- Bit i of an extracted field is bit firstbit+i of the raw value,
within the field width. -/
theorem field_extract_testBit {nb : Nat} (h : nb ≤ 16) (a fb i : Nat) :
    (field_extract a fb nb).testBit i
      = (a.testBit (fb + i) && decide (i < nb)) := by
  rw [field_extract, maskFor_eq h, Nat.testBit_and, Nat.testBit_shiftRight,
    Nat.testBit_two_pow_sub_one]

/-- Two raw values extract to the same field value exactly when they
agree on every bit of the field span. -/
theorem field_extract_eq_iff {nb : Nat} (h : nb ≤ 16) (a b fb : Nat) :
    field_extract a fb nb = field_extract b fb nb ↔
      (∀ i, i < nb → a.testBit (fb + i) = b.testBit (fb + i)) := by
  constructor
  · intro he i hi
    have ht := congrArg (fun x => x.testBit i) he
    simp only [field_extract_testBit h] at ht
    simpa [hi] using ht
  · intro hb
    apply Nat.eq_of_testBit_eq
    intro i
    rw [field_extract_testBit h, field_extract_testBit h]
    by_cases hi : i < nb
    · rw [hb i hi]
    · simp [hi]

/-- C9: a bitfield is classified as default exactly when the bits of
its span agree between the raw value and the register default; the
classification is unchanged between raw values that agree on the span
(so flipping bits outside the span never changes it), and the
single-bit classification is the width-1 case of the range one. -/
theorem field_default_classification (regnum regval firstbit numbits : Nat)
    (h : numbits ≤ 16) :
    (range_isdefault regnum regval firstbit numbits = true ↔
      ∀ i, i < numbits →
        regval.testBit (firstbit + i)
          = (REG_DEFAULT.getD regnum 0).testBit (firstbit + i))
    ∧ (∀ regval2,
        (∀ i, i < numbits →
          regval.testBit (firstbit + i) = regval2.testBit (firstbit + i)) →
        range_isdefault regnum regval firstbit numbits
          = range_isdefault regnum regval2 firstbit numbits)
    ∧ bit_isdefault regnum regval firstbit
        = range_isdefault regnum regval firstbit 1 := by
  refine ⟨?_, ?_, ?_⟩
  · rw [range_isdefault, beq_iff_eq]
    exact field_extract_eq_iff h regval (REG_DEFAULT.getD regnum 0) firstbit
  · intro r2 hb
    have he := (field_extract_eq_iff h regval r2 firstbit).mpr hb
    rw [range_isdefault, range_isdefault, he]
  · rw [bit_isdefault, range_isdefault, field_extract, field_extract,
      show maskFor 1 = 1 from rfl]

/-- C9 witness: raw values 0x2004 and 0x2000 agree on the span of the
3-bit field at bit 12, so that field has the same classification for
both. -/
theorem field_default_classification_w :
    range_isdefault 0 0x2004 12 3 = range_isdefault 0 0x2000 12 3 :=
  (field_default_classification 0 0x2004 12 3 (by decide)).2.1 0x2000
    (by decide)

end CM6206
